import Mathlib

/-!
Verification of the SpiteDB projection pipeline against its sources.

The JS side of the pipeline (`crates/spitedb-napi/js/worker.ts`,
`spitedb-napi/js/runner.ts`) is embedded directly.  The native (Rust) side —
the projection state store of §4.F and the event-log writer of §4.B — is not
among the sources (only its tests and JS callers are), so those operations are
modelled from the spec, each marked `Modelled from the spec:` in its doc
comment.
-/

deriving instance DecidableEq for Except

namespace SpiteDB

/-- Association-list lookup: first binding of the key wins. -/
def alookup {α β : Type} [DecidableEq α] : List (α × β) → α → Option β
  | [], _ => none
  | (k, v) :: rest, k' => if k' = k then some v else alookup rest k'

/-- Association-list upsert: replaces the first binding of the key in place,
or appends a new binding at the end. -/
def aupsert {α β : Type} [DecidableEq α] : List (α × β) → α → β → List (α × β)
  | [], k, v => [(k, v)]
  | (k0, v0) :: rest, k, v =>
      if k0 = k then (k, v) :: rest else (k0, v0) :: aupsert rest k v

/-- Association-list removal of every binding of the key. -/
def aremove {α β : Type} [DecidableEq α] : List (α × β) → α → List (α × β)
  | [], _ => []
  | (k0, v0) :: rest, k =>
      if k0 = k then aremove rest k else (k0, v0) :: aremove rest k

/-- Kind of a buffered projection operation (`ProjectionOpNapi.opType` in
`js/worker.ts` / `js/runner.ts`). -/
inductive OpType
  | upsert
  | delete
  deriving DecidableEq, Repr

/-- A buffered projection operation as flushed by the staged proxy
(`ProjectionOp`): an `upsert` carries a JSON row value, a `delete` does not. -/
structure Op where
  opType : OpType
  key : String
  value : Option String
  deriving DecidableEq, Repr

/-- Modelled from the spec: the projection state store of §4.F lives in the
native crate, which is not among the sources.  Rows are indexed by the
concatenated key `(projection_name, tenant_id, primary_key)`; the checkpoint
is a single scalar per projection. -/
structure StateStore where
  rows : List ((String × String × String) × String)
  checkpoints : List (String × Nat)
  deriving DecidableEq, Repr

/-- `read_projection_row(name, tenant_id, key)` of §4.F / §6: looks the row up
under the full `(projection, tenant, key)` storage key. -/
def readProjectionRow (s : StateStore) (proj tenant key : String) : Option String :=
  alookup s.rows (proj, tenant, key)

/-- `get_projection_checkpoint(name)` of §4.F / §6. -/
def getProjectionCheckpoint (s : StateStore) (proj : String) : Option Nat :=
  alookup s.checkpoints proj

/-- One op applied under the `(projection, tenant)` scope (§4.F step 1). -/
def applyOp (rows : List ((String × String × String) × String))
    (proj tenant : String) (op : Op) :
    List ((String × String × String) × String) :=
  match op.opType with
  | .upsert => aupsert rows (proj, tenant, op.key) (op.value.getD "")
  | .delete => aremove rows (proj, tenant, op.key)

/-- The ordered op list applied left to right (§4.F step 1). -/
def applyOps (rows : List ((String × String × String) × String))
    (proj tenant : String) (ops : List Op) :
    List ((String × String × String) × String) :=
  ops.foldl (fun r op => applyOp r proj tenant op) rows

/-- Errors surfaced by the state store (§6). -/
inductive StoreError
  | checkpointRegression (projection : String) (proposed current : Nat)
  deriving DecidableEq, Repr

/-- Modelled from the spec: `apply_batch(projection_name, tenant_id, ops,
last_global_pos)` of §4.F — implemented in the native crate, absent from the
sources.  It atomically applies the ops under the `(projection, tenant)` scope
and advances the projection's checkpoint to `last_global_pos`, which must be
strictly greater than the previous checkpoint; an equal-or-lesser value is
rejected with `CheckpointRegression` and nothing changes. -/
def applyProjectionBatch (s : StateStore) (proj tenant : String) (ops : List Op)
    (lastGlobalPos : Nat) : Except StoreError StateStore :=
  match getProjectionCheckpoint s proj with
  | some cp =>
      if lastGlobalPos ≤ cp then
        .error (.checkpointRegression proj lastGlobalPos cp)
      else
        .ok ⟨applyOps s.rows proj tenant ops,
             aupsert s.checkpoints proj lastGlobalPos⟩
  | none =>
      .ok ⟨applyOps s.rows proj tenant ops,
           aupsert s.checkpoints proj lastGlobalPos⟩

/-- The last buffered op touching `key`, if any (later ops shadow earlier). -/
def lastOpOn (buf : List Op) (key : String) : Option Op :=
  buf.foldl (fun acc op => if op.key = key then some op else acc) none

/-- Modelled from the spec: the staged table view of §4.G — the proxy body
(`js/proxy.ts`) is not among the sources, only its declaration file is.
A read sees the current state-store row of the proxy's tenant plus any
earlier buffered upsert/delete of the same tenant. -/
def stagedRead (s : StateStore) (proj tenant : String) (buf : List Op)
    (key : String) : Option String :=
  match lastOpOn buf key with
  | some op =>
      match op.opType with
      | .upsert => some (op.value.getD "")
      | .delete => none
  | none => readProjectionRow s proj tenant key

/-- An event as it crosses the NAPI boundary into the worker (`EventNapi`,
`js/worker.ts` lines 44–51).  Position fields are the numeric values the
worker actually sees. -/
structure EventN where
  globalPos : Nat
  streamId : String
  tenantHash : Nat
  streamRev : Nat
  timestampMs : Nat
  data : String
  deriving DecidableEq, Repr

/-- A fetched event batch (`EventBatchNapi`, `js/worker.ts` lines 56–60). -/
structure EventBatchN where
  events : List EventN
  batchId : Nat
  deriving DecidableEq, Repr

/-- The verdicts an `onError` callback may return (`ErrorStrategy`). -/
inductive ErrorStrategy
  | skip
  | retry
  | stop
  deriving DecidableEq, Repr

/-- The observable outcome of one invocation of a user `apply` handler:
`ops` are the operations the staged proxy recorded during the invocation
(recorded as the handler executes, hence present even when the invocation
then throws), `ok` tells whether the invocation completed without throwing. -/
structure HandlerStep where
  ops : List Op
  ok : Bool

/-- A registered projection as the worker sees it (`ProjectionDefinition`
consumed by `main` in `js/worker.ts`).  `handler` abstracts the arbitrary
user `apply` function: it receives the event, the attempt number (1 = first
invocation, 2 = the single retry) and the staged read view, and reports the
ops it buffered plus success or failure.  `onError = none` models a
registration that omitted the callback. -/
structure ProjectionDef where
  name : String
  getTenantId : EventN → String
  handler : EventN → Nat → (String → Option String) → HandlerStep
  onError : Option (EventN → ErrorStrategy)

/-- The strategy the worker acts on:
`projection.onError?.(error, event) ?? 'stop'` (`js/worker.ts` line 252). -/
def strategyOf (p : ProjectionDef) (ev : EventN) : ErrorStrategy :=
  match p.onError with
  | some f => f ev
  | none => .stop

/-- The ops buffered so far by the tenant's proxy (empty if the tenant has no
proxy yet; `tenantProxies` in `js/worker.ts` lines 214–235). -/
def getBuf (bufs : List (String × List Op)) (t : String) : List Op :=
  (alookup bufs t).getD []

/-- Loop state of one batch iteration in `main` (`js/worker.ts`):
the per-tenant proxy buffers and the running `lastGlobalPos`. -/
structure LoopState where
  bufs : List (String × List Op)
  lastGlobalPos : Nat
  deriving DecidableEq, Repr

/-- How a worker batch iteration can fail: an escalated handler error
(recorded with the global position and attempt number of the throwing
invocation) or a rejected store commit. -/
inductive WorkerErr
  | handlerFailure (globalPos attempt : Nat)
  | storeFailure (e : StoreError)
  deriving DecidableEq, Repr

/-- The staged view handed to the first invocation of the handler for `ev`:
the tenant's proxy over whatever that tenant's buffer already holds. -/
def view1 (s : StateStore) (p : ProjectionDef) (st : LoopState) (ev : EventN) :
    String → Option String :=
  stagedRead s p.name (p.getTenantId ev) (getBuf st.bufs (p.getTenantId ev))

/-- The first invocation of the handler on `ev` (`js/worker.ts` line 248). -/
def step1 (s : StateStore) (p : ProjectionDef) (st : LoopState) (ev : EventN) :
    HandlerStep :=
  p.handler ev 1 (view1 s p st ev)

/-- The tenant's buffer after the first invocation: the ops it recorded stay
buffered whether or not the invocation threw. -/
def buf1 (s : StateStore) (p : ProjectionDef) (st : LoopState) (ev : EventN) :
    List Op :=
  getBuf st.bufs (p.getTenantId ev) ++ (step1 s p st ev).ops

/-- The staged view the retry invocation observes (`js/worker.ts` lines
262–263): the same tenant proxy, still holding the ops of the failed first
invocation. -/
def view2 (s : StateStore) (p : ProjectionDef) (st : LoopState) (ev : EventN) :
    String → Option String :=
  stagedRead s p.name (p.getTenantId ev) (buf1 s p st ev)

/-- The single retry invocation (`js/worker.ts` line 264). -/
def step2 (s : StateStore) (p : ProjectionDef) (st : LoopState) (ev : EventN) :
    HandlerStep :=
  p.handler ev 2 (view2 s p st ev)

/-- The worker's error handling after a failed first invocation
(`js/worker.ts` lines 250–275).  Nothing resets the tenant's proxy.  On
`retry` the handler is re-invoked once against the same proxy; a second
failure rethrows the original (first-invocation) error. -/
def retryStep (s : StateStore) (p : ProjectionDef) (st : LoopState)
    (ev : EventN) : Except WorkerErr LoopState × List (Nat × Nat) :=
  match strategyOf p ev with
  | .skip =>
      (.ok ⟨aupsert st.bufs (p.getTenantId ev) (buf1 s p st ev),
            ev.globalPos⟩, [])
  | .stop => (.error (.handlerFailure ev.globalPos 1), [])
  | .retry =>
      if (step2 s p st ev).ok then
        (.ok ⟨aupsert st.bufs (p.getTenantId ev)
                (buf1 s p st ev ++ (step2 s p st ev).ops), ev.globalPos⟩,
         [(ev.globalPos, 2)])
      else
        (.error (.handlerFailure ev.globalPos 1), [(ev.globalPos, 2)])

/-- One event of the batch loop (`js/worker.ts` lines 240–276), also
returning the trace of handler invocations `(globalPos, attempt)` made. -/
def runEvent (s : StateStore) (p : ProjectionDef) (st : LoopState)
    (ev : EventN) : Except WorkerErr LoopState × List (Nat × Nat) :=
  if (step1 s p st ev).ok then
    (.ok ⟨aupsert st.bufs (p.getTenantId ev) (buf1 s p st ev),
          ev.globalPos⟩, [(ev.globalPos, 1)])
  else
    ((retryStep s p st ev).1, (ev.globalPos, 1) :: (retryStep s p st ev).2)

/-- The whole event loop of one batch iteration; an escalated error aborts
the remaining events (the `throw` leaves the `for` loop). -/
def runEvents (s : StateStore) (p : ProjectionDef) :
    List EventN → LoopState → Except WorkerErr LoopState × List (Nat × Nat)
  | [], st => (.ok st, [])
  | ev :: rest, st =>
      match runEvent s p st ev with
      | (.ok st1, tr) =>
          let rec2 := runEvents s p rest st1
          (rec2.1, tr ++ rec2.2)
      | (.error e, tr) => (.error e, tr)

/-- One `applyProjectionBatch` NAPI invocation made by the worker's commit
loop (`js/worker.ts` lines 283–292). -/
structure ApplyCall where
  tenant : String
  ops : List Op
  lastGlobalPos : Nat
  deriving DecidableEq, Repr

/-- The worker's commit loop (`js/worker.ts` lines 278–294): one
`applyProjectionBatch` call per tenant proxy whose flushed op list is
non-empty, sequentially, all carrying the same `lastGlobalPos`; a store
error aborts the remaining calls but the earlier calls stay applied. -/
def commitBuffers (proj : String) :
    List (String × List Op) → Nat → StateStore →
    StateStore × List ApplyCall × Option StoreError
  | [], _, s => (s, [], none)
  | (t, ops) :: rest, pos, s =>
      if ops.isEmpty then commitBuffers proj rest pos s
      else
        match applyProjectionBatch s proj t ops pos with
        | .ok s1 =>
            let rec2 := commitBuffers proj rest pos s1
            (rec2.1, ⟨t, ops, pos⟩ :: rec2.2.1, rec2.2.2)
        | .error e => (s, [⟨t, ops, pos⟩], some e)

/-- Everything observable about one batch iteration of the worker. -/
structure WorkerOutcome where
  store : StateStore
  calls : List ApplyCall
  flushed : List (String × List Op)
  trace : List (Nat × Nat)
  err : Option WorkerErr
  deriving DecidableEq, Repr

/-- One iteration of the worker's main loop on a fetched batch
(`main` in `js/worker.ts`, lines 201–300): an empty batch is skipped
entirely; otherwise `lastGlobalPos` starts as `batch.batchId`, the events run
in order, and on success every tenant proxy with a non-empty flush gets its
own `applyProjectionBatch` call.  An escalated handler error skips the commit
loop altogether. -/
def workerProcessBatch (s : StateStore) (p : ProjectionDef)
    (batch : EventBatchN) : WorkerOutcome :=
  if batch.events.isEmpty then ⟨s, [], [], [], none⟩
  else
    match runEvents s p batch.events ⟨[], batch.batchId⟩ with
    | (.ok st, tr) =>
        match commitBuffers p.name st.bufs st.lastGlobalPos s with
        | (s1, calls, none) => ⟨s1, calls, st.bufs, tr, none⟩
        | (s1, calls, some e) => ⟨s1, calls, st.bufs, tr, some (.storeFailure e)⟩
    | (.error e, tr) => ⟨s, [], [], tr, some e⟩

/-- Options of a runner-managed projection (`ProjectionOptions`,
`js/runner.ts`).  The runner builds a single proxy per batch with no tenant
argument, so the staged view is folded into the handler abstraction: only the
recorded op list and the success flag reach the commit. -/
structure RunnerOptions where
  handler : EventN → Nat → HandlerStep
  onError : Option (EventN → ErrorStrategy)

/-- The `BatchResultNapi` the runner sends to `applyProjectionBatch`
(`js/runner.ts` lines 69–73): no tenant, one op list, one checkpoint. -/
structure RunnerCommit where
  projectionName : String
  operations : List Op
  lastGlobalPos : Nat
  deriving DecidableEq, Repr

/-- The event loop of `ProjectionRunner.processBatch` (`js/runner.ts` lines
257–288), accumulating the single proxy's ops and the running
`lastGlobalPos`; an escalated error carries the failing invocation. -/
def runnerEvents (opts : RunnerOptions) :
    List EventN → List Op × Nat → Except (Nat × Nat) (List Op × Nat)
  | [], acc => .ok acc
  | ev :: rest, (ops, _last) =>
      let step1 := opts.handler ev 1
      if step1.ok then runnerEvents opts rest (ops ++ step1.ops, ev.globalPos)
      else
        match (match opts.onError with | some f => f ev | none => .stop) with
        | .skip => runnerEvents opts rest (ops ++ step1.ops, ev.globalPos)
        | .stop => .error (ev.globalPos, 1)
        | .retry =>
            let step2 := opts.handler ev 2
            if step2.ok then
              runnerEvents opts rest (ops ++ step1.ops ++ step2.ops, ev.globalPos)
            else .error (ev.globalPos, 1)

/-- `ProjectionRunner.processBatch` (`js/runner.ts` lines 245–304):
`lastGlobalPos` is initialised to `batch.batchId` (line 255) and
`applyProjectionBatch` is always invoked after the loop (line 303), even when
the batch carried no events. -/
def runnerProcessBatch (name : String) (opts : RunnerOptions)
    (batch : EventBatchN) : Except (Nat × Nat) RunnerCommit :=
  match runnerEvents opts batch.events ([], batch.batchId) with
  | .ok (ops, last) => .ok ⟨name, ops, last⟩
  | .error e => .error e

/-- A committed event record of the log (§3 data model). -/
structure LogRecord where
  globalPos : Nat
  streamId : String
  streamRev : Nat
  tenantId : String
  commandId : String
  timestampMs : Nat
  payload : String
  deriving DecidableEq, Repr

/-- The durable event log, records in commit (global-position) order. -/
structure LogState where
  records : List LogRecord
  deriving DecidableEq, Repr

/-- `open(path)` on a fresh directory: an empty log (§6). -/
def openStore : LogState := ⟨[]⟩

/-- Current revision of a stream: the highest `stream_rev` committed for it,
0 when the stream does not exist (§3). -/
def currentRev (log : LogState) (sid : String) : Nat :=
  log.records.foldl (fun a r => if r.streamId = sid then max a r.streamRev else a) 0

/-- The store's published `global_head`: the highest committed position. -/
def globalHead (log : LogState) : Nat :=
  log.records.foldl (fun a r => max a r.globalPos) 0

/-- Append-path user errors (§4.B, §6). -/
inductive AppendError
  | revisionConflict (stream : String) (expected : Int) (actual : Nat)
  | commandIdReuse (stream commandId : String)
  deriving DecidableEq, Repr

/-- The result record of a successful `append` (§4.B). -/
structure AppendResult where
  firstRev : Nat
  lastRev : Nat
  firstGlobalPos : Nat
  lastGlobalPos : Nat
  deriving DecidableEq, Repr

/-- `expected_rev` semantics (§4.B): `0` = stream must not exist, `N>0` =
current revision must equal `N`, `-1` = any. -/
def revCheckOk (expectedRev : Int) (cur : Nat) : Bool :=
  if expectedRev = -1 then true
  else if expectedRev = 0 then cur == 0
  else (cur : Int) == expectedRev

/-- Modelled from the spec: the append path of §4.B is implemented in the
native crate, absent from the sources.  After the revision check and the
command-id idempotency check, global positions are assigned sequentially
from the store's monotonic counter and stream revisions continue from
`current_rev`; revisions and global positions are 1-based. -/
def append (log : LogState) (sid cid : String) (expectedRev : Int)
    (payloads : List String) (tenant : String) (now : Nat) :
    Except AppendError (LogState × AppendResult) :=
  let cur := currentRev log sid
  if ¬ revCheckOk expectedRev cur then
    .error (.revisionConflict sid expectedRev cur)
  else
    let prior := log.records.filter fun r => r.streamId == sid && r.commandId == cid
    if prior.isEmpty then
      let base := globalHead log
      let n := payloads.length
      let newRecs := ((List.range n).zip payloads).map fun ip =>
        ⟨base + 1 + ip.1, sid, cur + 1 + ip.1, tenant, cid, now, ip.2⟩
      .ok (⟨log.records ++ newRecs⟩, ⟨cur + 1, cur + n, base + 1, base + n⟩)
    else if prior.map (fun r => r.payload) = payloads then
      .ok (log, ⟨(prior.map (fun r => r.streamRev)).foldl min (cur + 1),
                 (prior.map (fun r => r.streamRev)).foldl max 0,
                 (prior.map (fun r => r.globalPos)).foldl min (globalHead log + 1),
                 (prior.map (fun r => r.globalPos)).foldl max 0⟩)
    else
      .error (.commandIdReuse sid cid)

/-- Reader errors (§4.D). -/
inductive ReadError
  | tenantMismatch
  deriving DecidableEq, Repr

/-- Modelled from the spec: `read_stream(stream_id, from_rev, max_count,
tenant_id)` of §4.D — native, absent from the sources.  Events come back in
revision order from `from_rev`; a record of another tenant fails the call
with `TenantMismatch` unless the privileged `system` token is presented. -/
def readStream (log : LogState) (sid : String) (fromRev maxCount : Nat)
    (tenant : String) : Except ReadError (List LogRecord) :=
  let recs := log.records.filter fun r => r.streamId == sid
  if tenant != "system" && recs.any (fun r => r.tenantId != tenant) then
    .error .tenantMismatch
  else
    .ok ((recs.filter fun r => fromRev ≤ r.streamRev).take maxCount)

/-- Modelled from the spec: `get_projection_events` (§4.G Fetching) — native,
absent from the sources.  Returns the next events strictly after the
projection's checkpoint, plus the scan watermark the checkpoint should
advance to when no event qualifies. -/
def fetchProjectionEvents (log : LogState) (s : StateStore) (proj : String)
    (batchSize : Nat) : List LogRecord × Nat :=
  let cp := (getProjectionCheckpoint s proj).getD 0
  let evs := (log.records.filter fun r => cp < r.globalPos).take batchSize
  (evs, if evs.isEmpty then globalHead log
        else evs.foldl (fun a r => max a r.globalPos) cp)

/-- Bit length with explicit fuel (64 bits suffice for every stored field). -/
def bitsAux : Nat → Nat → Nat
  | 0, _ => 0
  | fuel + 1, n => if n = 0 then 0 else bitsAux fuel (n / 2) + 1

/-- Number of binary digits of `n`, for `n < 2 ^ 64`. -/
def bitLen (n : Nat) : Nat := bitsAux 64 n

/-- Rounding of a natural number to the nearest IEEE-754 binary64 value,
ties to even, restricted to integers below `2 ^ 64`: the value a JS `number`
stores.  Exact for `n ≤ 2 ^ 53`; above that the unit in the last place is
`2 ^ (bitLen n - 53)`. -/
def roundF64 (n : Nat) : Nat :=
  if n ≤ 2 ^ 53 then n
  else
    let ulp := 2 ^ (bitLen n - 53)
    let q := n / ulp
    let r := n % ulp
    if 2 * r < ulp then q * ulp
    else if ulp < 2 * r then (q + 1) * ulp
    else if q % 2 = 0 then q * ulp
    else (q + 1) * ulp

/-- The 64-bit position fields of a stored event (§3). -/
structure Event64 where
  globalPos : Nat
  streamRev : Nat
  timestampMs : Nat
  deriving DecidableEq, Repr

/-- The corresponding fields of the `EventNapi` object the worker receives
(`js/worker.ts` lines 44–51): each is typed `number`, i.e. an IEEE-754
binary64, so each stored 64-bit value is rounded to the nearest double when
it crosses the NAPI boundary. -/
def toEventNapi (e : Event64) : Event64 :=
  ⟨roundF64 e.globalPos, roundF64 e.streamRev, roundF64 e.timestampMs⟩

/-- `napiEventToProjectionEvent` (`js/worker.ts` lines 111–120) applies
`BigInt(_)` to each `number` field; on an integral double that recovers
exactly the double's value, so the handler observes the rounded numbers. -/
def napiEventToProjectionEvent (e : Event64) : Event64 := toEventNapi e

/-- A projection whose handler routes each event to the tenant named by its
stream id and buffers one upsert for it: the smallest batch that touches two
tenants. -/
def pTwoTenants : ProjectionDef :=
  ⟨"p", fun ev => ev.streamId,
   fun ev _ _ => ⟨[⟨.upsert, ev.streamId, some "v"⟩], true⟩, none⟩

/-- Event at global position 1, routed to tenant `tA`. -/
def evTenantA : EventN := ⟨1, "tA", 0, 1, 0, ""⟩

/-- Event at global position 2, routed to tenant `tB`. -/
def evTenantB : EventN := ⟨2, "tB", 0, 1, 0, ""⟩

/-- The worker outcome on the two-tenant batch over an empty store. -/
def outTwoTenants : WorkerOutcome :=
  workerProcessBatch ⟨[], []⟩ pTwoTenants ⟨[evTenantA, evTenantB], 0⟩

/-- Runner options whose handler always succeeds without buffering ops. -/
def optsNoOps : RunnerOptions := ⟨fun _ _ => ⟨[], true⟩, none⟩

/-- A projection whose handler, on its first invocation, buffers
`upsert k "1"` and then throws; on the retry it records into row `seen`
the value it reads for `k`.  `onError` always answers `retry`. -/
def pRetryProbe : ProjectionDef :=
  ⟨"p", fun _ => "t",
   fun _ a view =>
     if a = 1 then ⟨[⟨.upsert, "k", some "1"⟩], false⟩
     else ⟨[⟨.upsert, "seen", some ((view "k").getD "miss")⟩], true⟩,
   some fun _ => .retry⟩

/-- The event driving `pRetryProbe`. -/
def evRetryProbe : EventN := ⟨1, "s", 0, 1, 0, ""⟩

/-- Store holding the pre-event snapshot `k ↦ "0"` for tenant `t`. -/
def sRetryProbe : StateStore := ⟨[(("p", "t", "k"), "0")], []⟩

/-- A store whose projection `p` is already checkpointed at 5. -/
def cpDemoStore : StateStore := ⟨[], [("p", 5)]⟩

/-- A projection whose handler always throws, with `onError = retry`. -/
def pAlwaysFails : ProjectionDef :=
  ⟨"p", fun _ => "t", fun _ _ _ => ⟨[], false⟩, some fun _ => .retry⟩

/-- A projection whose handler always throws and whose registration omitted
`onError`. -/
def pNoOnError : ProjectionDef :=
  ⟨"p", fun _ => "t", fun _ _ _ => ⟨[], false⟩, none⟩

/-- A projection whose handler always succeeds without buffering any op. -/
def pNoWrites : ProjectionDef :=
  ⟨"p", fun _ => "t", fun _ _ _ => ⟨[], true⟩, none⟩

/-- A projection used to witness tenant isolation: events route to the
tenant named by their stream id and buffer one upsert for it. -/
def pIsolationDemo : ProjectionDef :=
  ⟨"p", fun ev => ev.streamId,
   fun _ _ _ => ⟨[⟨.upsert, "k1", some "w"⟩], true⟩, none⟩

/-- A plain event at global position 1 on stream `tA`. -/
def evPlain : EventN := ⟨1, "tA", 0, 1, 0, ""⟩

/-- Looking up after `aupsert` finds the new binding, others untouched. -/
theorem alookup_aupsert {α β : Type} [DecidableEq α] (l : List (α × β))
    (k : α) (v : β) (k' : α) :
    alookup (aupsert l k v) k' = if k' = k then some v else alookup l k' := by
  induction l with
  | nil => simp [aupsert, alookup]
  | cons hd tl ih =>
      obtain ⟨k0, v0⟩ := hd
      by_cases h0 : k0 = k
      · subst h0
        by_cases h1 : k' = k0 <;> simp [aupsert, alookup, h1]
      · by_cases h1 : k' = k0
        · have hk : ¬ k' = k := fun hh => h0 (h1.symm.trans hh)
          simp [aupsert, alookup, h0, h1, hk]
        · simp [aupsert, alookup, h0, h1, ih]

/-- Looking up after `aremove` misses the removed key, others untouched. -/
theorem alookup_aremove {α β : Type} [DecidableEq α] (l : List (α × β))
    (k k' : α) :
    alookup (aremove l k) k' = if k' = k then none else alookup l k' := by
  induction l with
  | nil => simp [aremove, alookup]
  | cons hd tl ih =>
      obtain ⟨k0, v0⟩ := hd
      by_cases h0 : k0 = k
      · subst h0
        by_cases h1 : k' = k0
        · subst h1
          simp [aremove, alookup, ih]
        · simp [aremove, alookup, h1, ih]
      · by_cases h1 : k' = k0
        · have hk : ¬ k' = k := fun hh => h0 (h1.symm.trans hh)
          simp [aremove, alookup, h0, h1, hk]
        · simp [aremove, alookup, h0, h1, ih]

/-- Every member of `aupsert l k v` either carries the upserted key or was
already in `l`. -/
theorem mem_aupsert {α β : Type} [DecidableEq α] {l : List (α × β)} {k : α}
    {v : β} {tb : α × β} (h : tb ∈ aupsert l k v) : tb.1 = k ∨ tb ∈ l := by
  induction l with
  | nil =>
      have h2 : tb = (k, v) := by simpa [aupsert] using h
      subst h2
      exact Or.inl rfl
  | cons hd tl ih =>
      obtain ⟨k0, v0⟩ := hd
      by_cases h0 : k0 = k
      · subst h0
        have h3 : tb ∈ (k0, v) :: tl := by simpa [aupsert] using h
        rcases List.mem_cons.mp h3 with h2 | h2
        · subst h2; exact Or.inl rfl
        · exact Or.inr (List.mem_cons_of_mem _ h2)
      · have h3 : tb ∈ (k0, v0) :: aupsert tl k v := by simpa [aupsert, h0] using h
        rcases List.mem_cons.mp h3 with h2 | h2
        · subst h2; exact Or.inr (List.mem_cons_self _ _)
        · rcases ih h2 with h4 | h4
          · exact Or.inl h4
          · exact Or.inr (List.mem_cons_of_mem _ h4)

/-- An op applied under one tenant leaves every other tenant's rows
unreadable and unchanged. -/
theorem alookup_applyOp_ne (rows : List ((String × String × String) × String))
    (proj tenant : String) (op : Op) (p' t' k : String) (h : t' ≠ tenant) :
    alookup (applyOp rows proj tenant op) (p', t', k) =
      alookup rows (p', t', k) := by
  have hne : (p', t', k) ≠ (proj, tenant, op.key) := by
    intro heq
    exact h (congrArg (fun x => x.2.1) heq)
  cases hop : op.opType with
  | upsert => rw [applyOp, hop, alookup_aupsert, if_neg hne]
  | delete => rw [applyOp, hop, alookup_aremove, if_neg hne]

/-- An op list applied under one tenant leaves every other tenant's rows
unchanged. -/
theorem alookup_applyOps_ne (ops : List Op)
    (rows : List ((String × String × String) × String))
    (proj tenant p' t' k : String) (h : t' ≠ tenant) :
    alookup (applyOps rows proj tenant ops) (p', t', k) =
      alookup rows (p', t', k) := by
  induction ops generalizing rows with
  | nil => rfl
  | cons op rest ih =>
      have hstep : applyOps rows proj tenant (op :: rest) =
          applyOps (applyOp rows proj tenant op) proj tenant rest := rfl
      rw [hstep, ih, alookup_applyOp_ne _ _ _ _ _ _ _ h]

/-- A successful `apply_batch` is exactly: apply the ops under the scope and
move the checkpoint, which must strictly exceed any previous one. -/
theorem applyProjectionBatch_ok {s s' : StateStore} {proj tenant : String}
    {ops : List Op} {l : Nat}
    (h : applyProjectionBatch s proj tenant ops l = .ok s') :
    s' = ⟨applyOps s.rows proj tenant ops, aupsert s.checkpoints proj l⟩ ∧
    ∀ cp, getProjectionCheckpoint s proj = some cp → cp < l := by
  unfold applyProjectionBatch at h
  split at h
  · rename_i cp hcp
    split at h
    · cases h
    · rename_i hle
      refine ⟨(Except.ok.inj h).symm, ?_⟩
      intro cp2 hcp2
      rw [hcp] at hcp2
      cases hcp2
      exact Nat.lt_of_not_le hle
  · rename_i hcp
    refine ⟨(Except.ok.inj h).symm, ?_⟩
    intro cp2 hcp2
    rw [hcp] at hcp2
    cases hcp2

/-- A stale `last_global_pos` is rejected with `CheckpointRegression`. -/
theorem applyProjectionBatch_regression {s : StateStore} {proj : String}
    (tenant : String) (ops : List Op) {l cp : Nat}
    (hcp : getProjectionCheckpoint s proj = some cp) (hle : l ≤ cp) :
    applyProjectionBatch s proj tenant ops l =
      .error (.checkpointRegression proj l cp) := by
  unfold applyProjectionBatch
  rw [hcp]
  simp [hle]

/-- A successful `runEvent` upserts the event's tenant buffer and records the
event's position as the new `lastGlobalPos`. -/
theorem runEvent_fst_ok {s : StateStore} {p : ProjectionDef} {st : LoopState}
    {ev : EventN} {st1 : LoopState}
    (h : (runEvent s p st ev).1 = .ok st1) :
    (∃ buf, st1.bufs = aupsert st.bufs (p.getTenantId ev) buf) ∧
    st1.lastGlobalPos = ev.globalPos := by
  unfold runEvent at h
  by_cases h1 : (step1 s p st ev).ok
  · rw [if_pos h1] at h
    cases Except.ok.inj h
    exact ⟨⟨_, rfl⟩, rfl⟩
  · rw [if_neg h1] at h
    unfold retryStep at h
    cases hstrat : strategyOf p ev <;> rw [hstrat] at h
    · cases Except.ok.inj h
      exact ⟨⟨_, rfl⟩, rfl⟩
    · by_cases h2 : (step2 s p st ev).ok
      · rw [if_pos h2] at h
        cases Except.ok.inj h
        exact ⟨⟨_, rfl⟩, rfl⟩
      · rw [if_neg h2] at h
        cases h
    · cases h

/-- A failing `runEvent` always escalates the first invocation's error. -/
theorem runEvent_fst_error {s : StateStore} {p : ProjectionDef}
    {st : LoopState} {ev : EventN} {e : WorkerErr}
    (h : (runEvent s p st ev).1 = .error e) :
    e = .handlerFailure ev.globalPos 1 := by
  unfold runEvent at h
  by_cases h1 : (step1 s p st ev).ok
  · rw [if_pos h1] at h
    cases h
  · rw [if_neg h1] at h
    unfold retryStep at h
    cases hstrat : strategyOf p ev <;> rw [hstrat] at h
    · cases h
    · by_cases h2 : (step2 s p st ev).ok
      · rw [if_pos h2] at h
        cases h
      · rw [if_neg h2] at h
        exact (Except.error.inj h).symm
    · exact (Except.error.inj h).symm

/-- `runEvent` traces exactly the first invocation, possibly followed by the
single retry: never a third attempt. -/
theorem runEvent_trace_shape (s : StateStore) (p : ProjectionDef)
    (st : LoopState) (ev : EventN) :
    (runEvent s p st ev).2 = [(ev.globalPos, 1)] ∨
    (runEvent s p st ev).2 = [(ev.globalPos, 1), (ev.globalPos, 2)] := by
  unfold runEvent
  by_cases h1 : (step1 s p st ev).ok
  · rw [if_pos h1]
    exact Or.inl rfl
  · rw [if_neg h1]
    unfold retryStep
    cases strategyOf p ev
    · exact Or.inl rfl
    · by_cases h2 : (step2 s p st ev).ok
      · rw [if_pos h2]
        exact Or.inr rfl
      · rw [if_neg h2]
        exact Or.inr rfl
    · exact Or.inl rfl

/-- No handler invocation in a batch loop carries an attempt number above 2:
the worker retries at most once. -/
theorem runEvents_trace_le2 {s : StateStore} {p : ProjectionDef}
    (evs : List EventN) :
    ∀ st pr a, (pr, a) ∈ (runEvents s p evs st).2 → a ≤ 2 := by
  induction evs with
  | nil =>
      intro st pr a h
      simp [runEvents] at h
  | cons ev rest ih =>
      intro st pr a h
      unfold runEvents at h
      rcases hre : runEvent s p st ev with ⟨fst, tr0⟩
      rw [hre] at h
      have htr : tr0 = [(ev.globalPos, 1)] ∨
          tr0 = [(ev.globalPos, 1), (ev.globalPos, 2)] := by
        have h3 := runEvent_trace_shape s p st ev
        rw [hre] at h3
        exact h3
      cases fst with
      | ok st1 =>
          rcases List.mem_append.mp h with h2 | h2
          · rcases htr with h3 | h3 <;> rw [h3] at h2 <;> simp at h2 <;> omega
          · exact ih st1 pr a h2
      | error e =>
          rcases htr with h3 | h3 <;> rw [h3] at h <;> simp at h <;> omega

/-- Whenever every tenant that appears in the batch satisfies `P`, so does
every tenant owning a buffer when the loop finishes. -/
theorem runEvents_bufs_pred {s : StateStore} {p : ProjectionDef}
    (P : String → Prop) (evs : List EventN) :
    ∀ st st1, (runEvents s p evs st).1 = .ok st1 →
    (∀ tb ∈ st.bufs, P tb.1) → (∀ ev ∈ evs, P (p.getTenantId ev)) →
    ∀ tb ∈ st1.bufs, P tb.1 := by
  induction evs with
  | nil =>
      intro st st1 h hst _
      cases Except.ok.inj h
      exact hst
  | cons ev rest ih =>
      intro st st1 h hst hev
      unfold runEvents at h
      rcases hre : runEvent s p st ev with ⟨fst, tr0⟩
      rw [hre] at h
      cases fst with
      | ok stm =>
          have hstm : ∀ tb ∈ stm.bufs, P tb.1 := by
            have hok : (runEvent s p st ev).1 = .ok stm := by rw [hre]
            obtain ⟨⟨buf, hbufs⟩, _⟩ := runEvent_fst_ok hok
            intro tb htb
            rw [hbufs] at htb
            rcases mem_aupsert htb with h2 | h2
            · rw [h2]
              exact hev ev (List.mem_cons_self _ _)
            · exact hst tb h2
          exact ih stm st1 h hstm
            (fun e he => hev e (List.mem_cons_of_mem _ he))
      | error e => cases h

/-- Flushing only empty buffers makes no store call and leaves the store
untouched (`if (operations.length > 0)` in `js/worker.ts` line 282). -/
theorem commitBuffers_all_empty (proj : String)
    (bufs : List (String × List Op)) (pos : Nat) :
    ∀ s, (∀ tb ∈ bufs, tb.2 = ([] : List Op)) →
    commitBuffers proj bufs pos s = (s, [], none) := by
  induction bufs with
  | nil =>
      intro s _
      rfl
  | cons tb rest ih =>
      obtain ⟨t, ops⟩ := tb
      intro s h
      have hops : ops = [] := h (t, ops) (List.mem_cons_self _ _)
      subst hops
      show commitBuffers proj ((t, []) :: rest) pos s = (s, [], none)
      unfold commitBuffers
      rw [if_pos (by rfl)]
      exact ih s (fun tb2 htb2 => h tb2 (List.mem_cons_of_mem _ htb2))

/-- The commit loop only writes under the tenants owning a buffer: every
other tenant's rows read the same before and after, even when a call in the
middle is rejected. -/
theorem commitBuffers_preserves (proj : String)
    (bufs : List (String × List Op)) (pos : Nat) (t2 : String) :
    ∀ s, (∀ tb ∈ bufs, tb.1 ≠ t2) →
    ∀ pn k, readProjectionRow (commitBuffers proj bufs pos s).1 pn t2 k =
      readProjectionRow s pn t2 k := by
  induction bufs with
  | nil =>
      intro s _ pn k
      rfl
  | cons tb rest ih =>
      obtain ⟨t, ops⟩ := tb
      intro s h pn k
      have hne : t ≠ t2 := h (t, ops) (List.mem_cons_self _ _)
      have hrest := fun tb2 htb2 => h tb2 (List.mem_cons_of_mem _ htb2)
      unfold commitBuffers
      by_cases hemp : ops.isEmpty
      · rw [if_pos hemp]
        exact ih s hrest pn k
      · rw [if_neg hemp]
        cases hap : applyProjectionBatch s proj t ops pos with
        | ok s1 =>
            have hstep : readProjectionRow s1 pn t2 k =
                readProjectionRow s pn t2 k := by
              obtain ⟨hs1, _⟩ := applyProjectionBatch_ok hap
              subst hs1
              exact alookup_applyOps_ne _ _ _ _ _ _ _ (fun hh => hne hh.symm)
            calc readProjectionRow (commitBuffers proj rest pos s1).1 pn t2 k
                = readProjectionRow s1 pn t2 k := ih s1 hrest pn k
              _ = readProjectionRow s pn t2 k := hstep
        | error e => rfl

/-- C4: a stale `last_global_pos` (at or below the current checkpoint) makes
`apply_batch` fail with `CheckpointRegression` — the call returns the error
and no new store, so rows and checkpoint stand — while a successful apply
records exactly the proposed `last_global_pos` as the checkpoint, strictly
above any previous value: the checkpoint strictly increases over successful
applies. -/
theorem apply_batch_checkpoint_monotonic (s : StateStore)
    (proj tenant : String) (ops : List Op) (l : Nat) :
    (∀ cp, getProjectionCheckpoint s proj = some cp → l ≤ cp →
      applyProjectionBatch s proj tenant ops l =
        .error (.checkpointRegression proj l cp)) ∧
    (∀ s', applyProjectionBatch s proj tenant ops l = .ok s' →
      getProjectionCheckpoint s' proj = some l ∧
      ∀ cp, getProjectionCheckpoint s proj = some cp → cp < l) := by
  constructor
  · intro cp hcp hle
    exact applyProjectionBatch_regression tenant ops hcp hle
  · intro s' hok
    obtain ⟨hs', hlt⟩ := applyProjectionBatch_ok hok
    subst hs'
    refine ⟨?_, hlt⟩
    show alookup (aupsert s.checkpoints proj l) proj = some l
    rw [alookup_aupsert]
    simp

/-- C4 witness: on a store checkpointed at 5, proposing 3 is rejected as
`CheckpointRegression`, while a successful apply of 7 leaves the checkpoint
at exactly 7, strictly above the previous 5. -/
theorem apply_batch_checkpoint_monotonic_witness :
    applyProjectionBatch cpDemoStore "p" "t" [] 3 =
      .error (.checkpointRegression "p" 3 5) ∧
    getProjectionCheckpoint (⟨[], [("p", 7)]⟩ : StateStore) "p" = some 7 ∧
    5 < 7 := by
  refine ⟨(apply_batch_checkpoint_monotonic cpDemoStore "p" "t" [] 3).1 5
    (by decide) (by decide), ?_, ?_⟩
  · exact ((apply_batch_checkpoint_monotonic cpDemoStore "p" "t" [] 7).2
      ⟨[], [("p", 7)]⟩ (by decide)).1
  · exact ((apply_batch_checkpoint_monotonic cpDemoStore "p" "t" [] 7).2
      ⟨[], [("p", 7)]⟩ (by decide)).2 5 (by decide)

/-- C1: the claim says a delivered batch commits the ops of all touched
tenants and a single checkpoint advance atomically — all or nothing.  The
worker instead issues one `applyProjectionBatch` per touched tenant
(`js/worker.ts` lines 278–294), each carrying the same `lastGlobalPos`: on
this two-tenant batch the first call applies tenant `tA`'s ops and advances
the checkpoint to 2, and the second call is then rejected as a checkpoint
regression, leaving `tA` applied and `tB` unapplied — a state the claim says
is unreachable. -/
theorem worker_multi_tenant_commit_not_atomic :
    readProjectionRow outTwoTenants.store "p" "tA" "tA" = some "v" ∧
    readProjectionRow outTwoTenants.store "p" "tB" "tB" = none ∧
    getProjectionCheckpoint outTwoTenants.store "p" = some 2 ∧
    outTwoTenants.calls.length = 2 ∧
    outTwoTenants.err =
      some (.storeFailure (.checkpointRegression "p" 2 2)) := by decide

/-- C2: the claim says an empty fetched batch advances the checkpoint to the
reader's scan watermark, never to the batch's `batchId`.
`ProjectionRunner.processBatch` (`js/runner.ts` lines 255, 293–303)
initialises `lastGlobalPos` to `batch.batchId` and always commits it: on a
batch with no events and `batchId = 42` the store is told to advance the
checkpoint to exactly 42. -/
theorem runner_empty_batch_commits_batchId :
    runnerProcessBatch "user_stats" optsNoOps ⟨[], 42⟩ =
      .ok ⟨"user_stats", [], 42⟩ := by decide

/-- C3: the claim says the staged view the retry invocation observes is reset
to the pre-event snapshot.  The worker reuses the same tenant proxy for the
retry (`js/worker.ts` lines 259–269) without discarding the ops the failed
first invocation buffered: the pre-event snapshot of `k` is `"0"`, yet the
retry reads `"1"` — the value upserted by the failed invocation — as the
committed `seen` row records. -/
theorem worker_retry_observes_failed_invocation_ops :
    stagedRead sRetryProbe "p" "t" [] "k" = some "0" ∧
    readProjectionRow
      (workerProcessBatch sRetryProbe pRetryProbe ⟨[evRetryProbe], 0⟩).store
      "p" "t" "seen" = some "1" ∧
    (workerProcessBatch sRetryProbe pRetryProbe ⟨[evRetryProbe], 0⟩).err =
      none := by decide

/-- C6: on a freshly opened store, appending one event to a new stream with
`expected_rev = 0` returns `first_rev = last_rev = first_global_pos =
last_global_pos = 1` (revisions and positions are 1-based), and reading the
stream back under the same tenant returns exactly that one event. -/
theorem fresh_append_first_event :
    append openStore "user-1" "cmd-A" 0 ["hello"] "tenantX" 1000 =
      .ok (⟨[⟨1, "user-1", 1, "tenantX", "cmd-A", 1000, "hello"⟩]⟩,
           ⟨1, 1, 1, 1⟩) ∧
    readStream ⟨[⟨1, "user-1", 1, "tenantX", "cmd-A", 1000, "hello"⟩]⟩
        "user-1" 0 10 "tenantX" =
      .ok [⟨1, "user-1", 1, "tenantX", "cmd-A", 1000, "hello"⟩] := by decide

/-- C8: the claim says the positions a handler observes equal the stored
64-bit values even beyond `2 ^ 53`.  `EventNapi` (`js/worker.ts` lines 44–51)
carries `globalPos`, `streamRev` and `timestampMs` as JS `number`s — IEEE-754
binary64 — before `napiEventToProjectionEvent` widens them with `BigInt`, so
a stored `global_pos` of `2 ^ 53 + 1` reaches the handler as `2 ^ 53`:
the delivery path narrows through a 53-bit-mantissa float.  Values up to
`2 ^ 53` survive unchanged, as the last conjunct records. -/
theorem napi_number_narrows_past_2pow53 :
    (napiEventToProjectionEvent ⟨2 ^ 53 + 1, 1, 0⟩).globalPos = 2 ^ 53 ∧
    (napiEventToProjectionEvent ⟨2 ^ 53 + 1, 1, 0⟩).globalPos ≠ 2 ^ 53 + 1 ∧
    napiEventToProjectionEvent ⟨2 ^ 53, 3, 7⟩ = ⟨2 ^ 53, 3, 7⟩ := by decide

/-- C5: tenant isolation of projection state.  A successful `apply_batch`
under tenant `tenant` leaves every row of any other tenant `t2` reading
exactly as before (in particular, a row it wrote is still `none` under `t2`);
the staged view of `t2` is likewise untouched, and a staged proxy with an
empty buffer reads exactly its own tenant's stored row.  Finally, a whole
worker batch whose events all route to tenants other than `t2` leaves every
`t2` row unchanged: flushed ops are applied only under the tenant whose proxy
buffered them. -/
theorem projection_tenant_isolation (s : StateStore) (t2 : String) :
    (∀ s' proj tenant ops l, t2 ≠ tenant →
      applyProjectionBatch s proj tenant ops l = .ok s' →
      (∀ pn k, readProjectionRow s' pn t2 k = readProjectionRow s pn t2 k) ∧
      (∀ buf k, stagedRead s' proj t2 buf k = stagedRead s proj t2 buf k)) ∧
    (∀ proj tenant k,
      stagedRead s proj tenant [] k = readProjectionRow s proj tenant k) ∧
    (∀ p batch pn k, (∀ ev ∈ batch.events, p.getTenantId ev ≠ t2) →
      readProjectionRow (workerProcessBatch s p batch).store pn t2 k =
        readProjectionRow s pn t2 k) := by
  refine ⟨?_, ?_, ?_⟩
  · intro s' proj tenant ops l hne hok
    obtain ⟨hs', _⟩ := applyProjectionBatch_ok hok
    subst hs'
    have hrows : ∀ pn k,
        readProjectionRow
          ⟨applyOps s.rows proj tenant ops, aupsert s.checkpoints proj l⟩
          pn t2 k = readProjectionRow s pn t2 k := by
      intro pn k
      exact alookup_applyOps_ne _ _ _ _ _ _ _ hne
    refine ⟨hrows, ?_⟩
    intro buf k
    unfold stagedRead
    cases lastOpOn buf k with
    | some op => rfl
    | none => exact hrows proj k
  · intro proj tenant k
    rfl
  · intro p batch pn k hev
    unfold workerProcessBatch
    by_cases hemp : batch.events.isEmpty
    · rw [if_pos hemp]
    · rw [if_neg hemp]
      rcases hre : runEvents s p batch.events ⟨[], batch.batchId⟩ with ⟨fst, tr⟩
      cases fst with
      | ok st =>
          dsimp only
          have hbt : ∀ tb ∈ st.bufs, tb.1 ≠ t2 := by
            refine @runEvents_bufs_pred s p (fun t => t ≠ t2) batch.events
              ⟨[], batch.batchId⟩ st ?_ ?_ hev
            · rw [hre]
            · intro tb htb
              cases htb
          have hpres := commitBuffers_preserves p.name st.bufs
            st.lastGlobalPos t2 s hbt pn k
          rcases hcb : commitBuffers p.name st.bufs st.lastGlobalPos s
            with ⟨s1, calls, err⟩
          rw [hcb] at hpres
          cases err with
          | none => exact hpres
          | some e => exact hpres
      | error e => rfl

/-- The state after applying one upsert for tenant `tA` at checkpoint 5. -/
def demoApplied : StateStore := ⟨[(("p", "tA", "k1"), "v")], [("p", 5)]⟩

/-- C5 witness: tenant `tX` reads nothing new after an `apply_batch` under
`tA` and after a whole worker batch routed to `tA`. -/
theorem projection_tenant_isolation_witness :
    readProjectionRow demoApplied "p" "tX" "k1" =
      readProjectionRow (⟨[], []⟩ : StateStore) "p" "tX" "k1" ∧
    readProjectionRow
        (workerProcessBatch ⟨[], []⟩ pIsolationDemo ⟨[evPlain], 0⟩).store
        "p" "tX" "k1" =
      readProjectionRow (⟨[], []⟩ : StateStore) "p" "tX" "k1" := by
  constructor
  · exact ((projection_tenant_isolation ⟨[], []⟩ "tX").1 demoApplied "p" "tA"
      [⟨.upsert, "k1", some "v"⟩] 5 (by decide) (by decide)).1 "p" "k1"
  · exact (projection_tenant_isolation ⟨[], []⟩ "tX").2.2 pIsolationDemo
      ⟨[evPlain], 0⟩ "p" "k1" (by decide)

/-- C7: when the first invocation of the handler for `ev` fails and the
verdict is `retry`, the worker re-invokes the handler exactly once (the trace
records attempts 1 and 2, and no invocation anywhere ever carries an attempt
above 2); when that single retry also fails, the batch aborts with the
original first-invocation error, no `applyProjectionBatch` call is made, and
the store — hence the checkpoint — is untouched. -/
theorem worker_retry_once_then_stop (s : StateStore) (p : ProjectionDef)
    (ev : EventN) (b : Nat)
    (h1 : (step1 s p ⟨[], b⟩ ev).ok = false)
    (h2 : strategyOf p ev = .retry)
    (h3 : (step2 s p ⟨[], b⟩ ev).ok = false) :
    workerProcessBatch s p ⟨[ev], b⟩ =
      ⟨s, [], [], [(ev.globalPos, 1), (ev.globalPos, 2)],
       some (.handlerFailure ev.globalPos 1)⟩ ∧
    (∀ batch pr a, (pr, a) ∈ (workerProcessBatch s p batch).trace → a ≤ 2) := by
  constructor
  · have hrun : runEvent s p ⟨[], b⟩ ev =
        (.error (.handlerFailure ev.globalPos 1),
         [(ev.globalPos, 1), (ev.globalPos, 2)]) := by
      simp [runEvent, retryStep, h1, h2, h3]
    simp [workerProcessBatch, runEvents, hrun]
  · intro batch pr a h
    unfold workerProcessBatch at h
    by_cases hemp : batch.events.isEmpty
    · rw [if_pos hemp] at h
      simp at h
    · rw [if_neg hemp] at h
      rcases hre : runEvents s p batch.events ⟨[], batch.batchId⟩ with ⟨fst, tr⟩
      rw [hre] at h
      have hmem : (pr, a) ∈ tr → a ≤ 2 := by
        intro hm
        refine @runEvents_trace_le2 s p batch.events ⟨[], batch.batchId⟩ pr a ?_
        rw [hre]
        exact hm
      cases fst with
      | ok st =>
          dsimp only at h
          rcases hcb : commitBuffers p.name st.bufs st.lastGlobalPos s
            with ⟨s1, calls, err⟩
          rw [hcb] at h
          cases err with
          | none => exact hmem h
          | some e => exact hmem h
      | error e => exact hmem h

/-- C7 witness: a handler that always throws, registered with `retry`, on a
single-event batch: attempts 1 and 2 are traced, the original error
escalates, no store call is made and the store is unchanged. -/
theorem worker_retry_once_then_stop_witness :
    workerProcessBatch ⟨[], []⟩ pAlwaysFails ⟨[evPlain], 0⟩ =
      ⟨⟨[], []⟩, [], [], [(1, 1), (1, 2)], some (.handlerFailure 1 1)⟩ :=
  (worker_retry_once_then_stop ⟨[], []⟩ pAlwaysFails evPlain 0
    (by decide) (by decide) (by decide)).1

/-- C9: a non-empty batch all of whose tenant proxies flushed empty op lists
makes no `applyProjectionBatch` call at all, so the store — and with it the
projection's checkpoint — is exactly as before, and the spec-modelled fetch
starting after the unchanged checkpoint returns the very same batch on the
next poll. -/
theorem worker_empty_flush_no_commit (s : StateStore) (p : ProjectionDef)
    (batch : EventBatchN) (log : LogState) (bs : Nat)
    (h1 : batch.events ≠ [])
    (h2 : ∀ tb ∈ (workerProcessBatch s p batch).flushed,
      tb.2 = ([] : List Op)) :
    (workerProcessBatch s p batch).calls = [] ∧
    (workerProcessBatch s p batch).store = s ∧
    fetchProjectionEvents log (workerProcessBatch s p batch).store p.name bs =
      fetchProjectionEvents log s p.name bs := by
  have hemp : batch.events.isEmpty = false := by
    cases hb : batch.events with
    | nil => exact absurd hb h1
    | cons a l => rfl
  unfold workerProcessBatch at h2 ⊢
  rw [hemp] at h2 ⊢
  simp only [Bool.false_eq_true, if_false] at h2 ⊢
  rcases hre : runEvents s p batch.events ⟨[], batch.batchId⟩ with ⟨fst, tr⟩
  rw [hre] at h2
  cases fst with
  | error e => exact ⟨rfl, rfl, rfl⟩
  | ok st =>
      dsimp only at h2 ⊢
      rcases hcb : commitBuffers p.name st.bufs st.lastGlobalPos s
        with ⟨s1, calls, err⟩
      rw [hcb] at h2
      have hall : commitBuffers p.name st.bufs st.lastGlobalPos s =
          (s, [], none) := by
        refine commitBuffers_all_empty p.name st.bufs st.lastGlobalPos s ?_
        cases err with
        | none => exact fun tb htb => h2 tb htb
        | some e => exact fun tb htb => h2 tb htb
      have hcomp : (s1, calls, err) =
          ((s, ([], (none : Option StoreError))) :
            StateStore × List ApplyCall × Option StoreError) :=
        hcb.symm.trans hall
      have hs1 : s1 = s := congrArg (fun x => x.1) hcomp
      have hcalls : calls = [] := congrArg (fun x => x.2.1) hcomp
      have herr2 : err = none := congrArg (fun x => x.2.2) hcomp
      subst hs1
      subst hcalls
      subst herr2
      exact ⟨rfl, rfl, rfl⟩

/-- C9 witness: one event whose handler succeeds without buffering any op —
no store call, store unchanged, identical fetch afterwards. -/
theorem worker_empty_flush_no_commit_witness :
    (workerProcessBatch ⟨[], []⟩ pNoWrites ⟨[evPlain], 0⟩).calls = [] ∧
    (workerProcessBatch ⟨[], []⟩ pNoWrites ⟨[evPlain], 0⟩).store = ⟨[], []⟩ ∧
    fetchProjectionEvents openStore
        (workerProcessBatch ⟨[], []⟩ pNoWrites ⟨[evPlain], 0⟩).store
        pNoWrites.name 10 =
      fetchProjectionEvents openStore ⟨[], []⟩ pNoWrites.name 10 :=
  worker_empty_flush_no_commit ⟨[], []⟩ pNoWrites ⟨[evPlain], 0⟩ openStore 10
    (by decide) (by decide)

/-- C10: a registration that omitted `onError` behaves exactly as a `stop`
verdict: the computed strategy is `stop` for every event, a single-event
batch whose handler throws aborts with that first-invocation error — nothing
committed, store and checkpoint untouched — and, in general, whenever a
worker batch ends in an escalated handler error, no store call was made and
the store is unchanged. -/
theorem omitted_on_error_defaults_to_stop (s : StateStore) (p : ProjectionDef)
    (hnone : p.onError = none) :
    (∀ ev, strategyOf p ev = .stop) ∧
    (∀ ev b, (step1 s p ⟨[], b⟩ ev).ok = false →
      workerProcessBatch s p ⟨[ev], b⟩ =
        ⟨s, [], [], [(ev.globalPos, 1)],
         some (.handlerFailure ev.globalPos 1)⟩) ∧
    (∀ batch pr a,
      (workerProcessBatch s p batch).err = some (.handlerFailure pr a) →
      (workerProcessBatch s p batch).store = s ∧
      (workerProcessBatch s p batch).calls = []) := by
  refine ⟨?_, ?_, ?_⟩
  · intro ev
    unfold strategyOf
    rw [hnone]
  · intro ev b h1
    have hstop : strategyOf p ev = .stop := by
      unfold strategyOf
      rw [hnone]
    have hrun : runEvent s p ⟨[], b⟩ ev =
        (.error (.handlerFailure ev.globalPos 1), [(ev.globalPos, 1)]) := by
      simp [runEvent, retryStep, h1, hstop]
    simp [workerProcessBatch, runEvents, hrun]
  · intro batch pr a herr
    unfold workerProcessBatch at herr ⊢
    by_cases hemp : batch.events.isEmpty
    · rw [if_pos hemp] at herr
      simp at herr
    · rw [if_neg hemp] at herr ⊢
      rcases hre : runEvents s p batch.events ⟨[], batch.batchId⟩ with ⟨fst, tr⟩
      rw [hre] at herr
      cases fst with
      | ok st =>
          dsimp only at herr ⊢
          rcases hcb : commitBuffers p.name st.bufs st.lastGlobalPos s
            with ⟨s1, calls, err⟩
          rw [hcb] at herr
          cases err with
          | none => simp at herr
          | some e => simp at herr
      | error e => exact ⟨rfl, rfl⟩

/-- C10 witness: a handler that always throws under a registration without
`onError`: the single event aborts the batch with its first-invocation
error; nothing is committed. -/
theorem omitted_on_error_defaults_to_stop_witness :
    workerProcessBatch ⟨[], []⟩ pNoOnError ⟨[evPlain], 0⟩ =
      ⟨⟨[], []⟩, [], [], [(1, 1)], some (.handlerFailure 1 1)⟩ :=
  (omitted_on_error_defaults_to_stop ⟨[], []⟩ pNoOnError rfl).2.1 evPlain 0
    (by decide)

end SpiteDB
